import Mathlib

/-!
# Verification of the `fsmall` finite-state-machine library

Shallow embedding of `src/lib.rs` (crate `fsmall`): a minimal Mealy/Moore
machine engine over static transition and output tables, with explicit
error handling.

Modelling conventions:
- Rust `u8` state values become `Fin 256`.
- `&'static [T]` table slices become `List T`.
- A Rust method taking `&mut self` and returning `Result<O, StepError>`
  becomes a Lean function `Machine → I → Except StepError O × Machine`,
  returning the result together with the machine as it stands after the
  call (so partial commits are observable).
- A Rust method taking `&self` (read-only receiver) becomes a pure
  function of the machine; the borrow checker guarantees it cannot
  mutate any field.
- Slice iteration with `iter().find(..)` becomes `List.find?` with the
  same boolean predicate; `slice.get(i).copied()` becomes `l[i]?`.
-/

namespace Fsmall

/-- `StepError` from `src/lib.rs`: error returned when an FSM step fails.
`NoTransition`: no transition defined for the `(state, input)` pair.
`NoOutput`: no output defined for the `(state, input)` pair in Mealy,
or state index out of bounds in Moore. -/
inductive StepError : Type where
  | NoTransition : StepError
  | NoOutput : StepError
deriving DecidableEq, Repr

/-- Machine state: Rust `u8`, i.e. an integer in `0–255`. -/
abbrev State : Type := Fin 256

/-- `Mealy<I, O>` from `src/lib.rs`: output depends on
`(current_state, input)`.  Fields: current state, transition table
`(from_state, input, to_state)`, output table `(state, input, output)`. -/
structure Mealy (I O : Type) : Type where
  state : State
  transitions : List (State × I × State)
  outputs : List (State × I × O)

namespace Mealy

variable {I O : Type} [BEq I]

/-- `Mealy::new(initial_state, transitions, outputs)`: construct with the
given initial state and tables; performs no validation. -/
def new (initial_state : State) (transitions : List (State × I × State))
    (outputs : List (State × I × O)) : Mealy I O :=
  { state := initial_state, transitions := transitions, outputs := outputs }

/-- `Mealy::step(&mut self, input)`: find the next state in the transition
table (first match), then the output in the output table (first match,
keyed on the state before the transition), then commit the transition and
return the output.  An early `?` return on either lookup failure leaves
the machine untouched. -/
def step (m : Mealy I O) (input : I) : Except StepError O × Mealy I O :=
  -- Find next state in transition table
  match m.transitions.find? (fun t => t.1 == m.state && t.2.1 == input) with
  | none => (Except.error StepError.NoTransition, m)
  | some t =>
    let next := t.2.2
    -- Find output in output table
    match m.outputs.find? (fun e => e.1 == m.state && e.2.1 == input) with
    | none => (Except.error StepError.NoOutput, m)
    | some e =>
      -- Commit state transition
      (Except.ok e.2.2, { m with state := next })

/-- `Mealy::current_state(&self)`: get current state. -/
def current_state (m : Mealy I O) : State :=
  m.state

/-- `Mealy::reset(&mut self, state)`: reset to a specific state. -/
def reset (m : Mealy I O) (state : State) : Mealy I O :=
  { m with state := state }

end Mealy

/-- `Moore<I, O>` from `src/lib.rs`: output depends only on
`current_state`.  Fields: current state, transition table
`(from_state, input, to_state)`, output array `outputs[state] = output`. -/
structure Moore (I O : Type) : Type where
  state : State
  transitions : List (State × I × State)
  outputs : List O

namespace Moore

variable {I O : Type} [BEq I]

/-- `Moore::new(initial_state, transitions, outputs)`: construct with the
given initial state and tables; performs no validation. -/
def new (initial_state : State) (transitions : List (State × I × State))
    (outputs : List O) : Moore I O :=
  { state := initial_state, transitions := transitions, outputs := outputs }

/-- `Moore::step(&mut self, input)`: find the next state in the transition
table (first match), commit the transition immediately, then index the
output array at the new current state (`self.outputs.get(self.state as
usize)`), failing with `NoOutput` if out of bounds — without rolling back
the already-committed state. -/
def step (m : Moore I O) (input : I) : Except StepError O × Moore I O :=
  -- Find next state in transition table
  match m.transitions.find? (fun t => t.1 == m.state && t.2.1 == input) with
  | none => (Except.error StepError.NoTransition, m)
  | some t =>
    -- Commit state transition
    let m' : Moore I O := { m with state := t.2.2 }
    -- Get output for new state
    match m'.outputs[m'.state.val]? with
    | none => (Except.error StepError.NoOutput, m')
    | some o => (Except.ok o, m')

/-- `Moore::current_state(&self)`: get current state. -/
def current_state (m : Moore I O) : State :=
  m.state

/-- `Moore::current_output(&self)`: get current output without
transitioning: `self.outputs.get(self.state as usize).copied()
.ok_or(StepError::NoOutput)`. -/
def current_output (m : Moore I O) : Except StepError O :=
  match m.outputs[m.state.val]? with
  | none => Except.error StepError.NoOutput
  | some o => Except.ok o

/-- A call of `Moore::current_output` viewed as an operation on the
machine: the Rust receiver is `&self` (shared, read-only borrow), so the
call returns its result and leaves every field of the machine as it was. -/
def current_output_call (m : Moore I O) : Except StepError O × Moore I O :=
  (m.current_output, m)

/-- `Moore::reset(&mut self, state)`: reset to a specific state. -/
def reset (m : Moore I O) (state : State) : Moore I O :=
  { m with state := state }

end Moore

/-- The shared transition-resolver logic (§4.1 of the design): scan the
table in order and return the `to_state` of the first entry whose
`(from_state, input)` equals `(current_state, input)`.  Both engines
inline exactly this code. -/
def resolve {I : Type} [BEq I] (table : List (State × I × State))
    (state : State) (input : I) : Option State :=
  (table.find? (fun t => t.1 == state && t.2.1 == input)).map (fun t => t.2.2)

/-- Concrete input alphabet used for witnesses and scenarios
(`TestInput` in the crate's tests). -/
inductive TIn : Type where
  | A : TIn
  | B : TIn
deriving DecidableEq, Repr

/-- Concrete output alphabet used for witnesses and scenarios
(`TestOutput` in the crate's tests). -/
inductive TOut : Type where
  | X : TOut
  | Y : TOut
deriving DecidableEq, Repr

/-- Scenario A Mealy machine from the spec: transitions
`[(0,A,1),(1,B,0)]`, outputs `[(0,A,X),(1,B,Y)]`, initial state 0. -/
def mealyA : Mealy TIn TOut :=
  Mealy.new 0 [(0, TIn.A, 1), (1, TIn.B, 0)]
    [(0, TIn.A, TOut.X), (1, TIn.B, TOut.Y)]

/-- A Mealy machine whose transition table matches on `(0, A)` but whose
output table is empty, so `step A` fails with `NoOutput`. -/
def mealyNoOut : Mealy TIn TOut :=
  Mealy.new 0 [(0, TIn.A, 1)] []

/-- Scenario C Moore machine from the spec: transitions
`[(0,A,1),(1,B,0)]`, output array `[X, Y]`, initial state 0. -/
def mooreC : Moore TIn TOut :=
  Moore.new 0 [(0, TIn.A, 1), (1, TIn.B, 0)] [TOut.X, TOut.Y]

/-- Scenario D Moore machine from the spec: state 0 maps to state 2 on
input `A`, but the output array has only indices 0 and 1. -/
def mooreD : Moore TIn TOut :=
  Moore.new 0 [(0, TIn.A, 2)] [TOut.X, TOut.Y]

/-- A transition table with two entries sharing the key `(0, A)` but
different destination states: the first maps to 1, the second to 2. -/
def dupTable : List (State × TIn × State) :=
  [(0, TIn.A, 1), (0, TIn.A, 2)]

/-- Mealy machine over `dupTable`, initial state 0, with an output for
`(0, A)`. -/
def mealyDup : Mealy TIn TOut :=
  Mealy.new 0 dupTable [(0, TIn.A, TOut.X)]

/-- Moore machine over `dupTable`, initial state 0, outputs `[X, Y]`. -/
def mooreDup : Moore TIn TOut :=
  Moore.new 0 dupTable [TOut.X, TOut.Y]

/- ### Helper lemmas -/

/-- `List.find?` skips a prefix on which the predicate is everywhere
false. -/
theorem find?_append_of_forall_false {α : Type} {p : α → Bool}
    {pre : List α} (rest : List α) (hpre : ∀ e ∈ pre, p e = false) :
    (pre ++ rest).find? p = rest.find? p := by
  induction pre with
  | nil => rfl
  | cons a as ih =>
    rw [List.cons_append,
      List.find?_cons_of_neg _ (by simp [hpre a (List.mem_cons_self a as)]),
      ih (fun e he => hpre e (List.mem_cons_of_mem a he))]

/- ### Claim theorems -/

/-- C7: For every Mealy or Moore machine, every state value `s` (0–255),
and every prior history (any machine value), `reset s` followed by
`current_state` returns `s`, regardless of table contents: `reset`
performs no validation. -/
theorem reset_then_current_state {I O : Type} :
    (∀ (m : Mealy I O) (s : State), (m.reset s).current_state = s) ∧
    (∀ (m : Moore I O) (s : State), (m.reset s).current_state = s) :=
  ⟨fun _ _ => rfl, fun _ _ => rfl⟩

/-- C8: Moore `current_output` is idempotent and side-effect-free: two
consecutive calls (modelled by `current_output_call`, which records that
the `&self` receiver leaves the machine unchanged) return the same
`Result` value, and neither call changes the machine, hence neither
changes `current_state` or any other field. -/
theorem current_output_idempotent {I O : Type} (m : Moore I O) :
    m.current_output_call.2.current_output_call.1 = m.current_output_call.1 ∧
    m.current_output_call.2 = m ∧
    m.current_output_call.2.current_output_call.2 = m :=
  ⟨rfl, rfl, rfl⟩

/-- C9: `step` and `current_output` are total: for every machine, input
and table content, they return a value that is either `Ok` or one of the
two `StepError` values (`NoTransition` / `NoOutput`); the embedding is a
total function, mirroring that the source never panics (it uses only
`find` and checked `get`). -/
theorem errors_returned_as_values {I O : Type} [BEq I] :
    (∀ (m : Mealy I O) (input : I),
      (∃ o, (m.step input).1 = Except.ok o) ∨
      (m.step input).1 = Except.error StepError.NoTransition ∨
      (m.step input).1 = Except.error StepError.NoOutput) ∧
    (∀ (m : Moore I O) (input : I),
      (∃ o, (m.step input).1 = Except.ok o) ∨
      (m.step input).1 = Except.error StepError.NoTransition ∨
      (m.step input).1 = Except.error StepError.NoOutput) ∧
    (∀ (m : Moore I O),
      (∃ o, m.current_output = Except.ok o) ∨
      m.current_output = Except.error StepError.NoOutput) := by
  refine ⟨fun m input => ?_, fun m input => ?_, fun m => ?_⟩
  · cases hf : m.transitions.find? (fun t => t.1 == m.state && t.2.1 == input) with
    | none => exact Or.inr (Or.inl (by simp [Mealy.step, hf]))
    | some t =>
      cases hg : m.outputs.find? (fun e => e.1 == m.state && e.2.1 == input) with
      | none => exact Or.inr (Or.inr (by simp [Mealy.step, hf, hg]))
      | some e => exact Or.inl ⟨e.2.2, by simp [Mealy.step, hf, hg]⟩
  · cases hf : m.transitions.find? (fun t => t.1 == m.state && t.2.1 == input) with
    | none => exact Or.inr (Or.inl (by simp [Moore.step, hf]))
    | some t =>
      cases hg : m.outputs[t.2.2.val]? with
      | none => exact Or.inr (Or.inr (by simp [Moore.step, hf, hg]))
      | some o => exact Or.inl ⟨o, by simp [Moore.step, hf, hg]⟩
  · cases hg : m.outputs[m.state.val]? with
    | none => exact Or.inr (by simp [Moore.current_output, hg])
    | some o => exact Or.inl ⟨o, by simp [Moore.current_output, hg]⟩

/-- C6: For every Moore machine, a successful `step` returns the output
indexed at the new (post-commit) state: if `step input` returns `Ok o`,
then the output array entry at the post-step `current_state` is `o`.
(The concrete Scenario C instance is the witness.) -/
theorem moore_step_output_post_commit {I O : Type} [BEq I]
    (m : Moore I O) (input : I) (o : O)
    (h : (m.step input).1 = Except.ok o) :
    (m.step input).2.outputs[(m.step input).2.current_state.val]? = some o := by
  cases hf : m.transitions.find? (fun t => t.1 == m.state && t.2.1 == input) with
  | none => simp [Moore.step, hf] at h
  | some t =>
    cases hg : m.outputs[t.2.2.val]? with
    | none => simp [Moore.step, hf, hg] at h
    | some o2 =>
      simp only [Moore.step, hf, hg, Moore.current_state] at h ⊢
      simpa [hg] using h

/-- Witness for C6, instantiated at Scenario C from the spec: table
`[(0,A,1),(1,B,0)]`, outputs `[X, Y]`, initial state 0; `step A` returns
`Ok Y` (the output of destination state 1), the state becomes 1, and the
output array at the new state holds `Y`. -/
theorem moore_step_output_post_commit_witness :
    (mooreC.step TIn.A).1 = Except.ok TOut.Y ∧
    (mooreC.step TIn.A).2.current_state = 1 ∧
    (mooreC.step TIn.A).2.outputs[(mooreC.step TIn.A).2.current_state.val]? =
      some TOut.Y :=
  ⟨rfl, rfl, moore_step_output_post_commit mooreC TIn.A TOut.Y rfl⟩

/-- C10: For every Moore machine, if `step input` returns `Ok o`, then
`current_output` called immediately afterwards (no intervening step or
reset) also returns `Ok o`. -/
theorem moore_step_then_current_output {I O : Type} [BEq I]
    (m : Moore I O) (input : I) (o : O)
    (h : (m.step input).1 = Except.ok o) :
    (m.step input).2.current_output = Except.ok o := by
  cases hf : m.transitions.find? (fun t => t.1 == m.state && t.2.1 == input) with
  | none => simp [Moore.step, hf] at h
  | some t =>
    cases hg : m.outputs[t.2.2.val]? with
    | none => simp [Moore.step, hf, hg] at h
    | some o2 =>
      simp only [Moore.step, hf, hg] at h ⊢
      simp only [Moore.current_output, hg]
      simpa using h

/-- Witness for C10 at Scenario C: `step A` on the scenario machine
returns `Ok Y` and `current_output` right after also returns `Ok Y`. -/
theorem moore_step_then_current_output_witness :
    (mooreC.step TIn.A).1 = Except.ok TOut.Y ∧
    (mooreC.step TIn.A).2.current_output = Except.ok TOut.Y :=
  ⟨rfl, moore_step_then_current_output mooreC TIn.A TOut.Y rfl⟩

/-- C1: For every Moore machine and input, if `step` returns
`Err(NoOutput)` (a transition matched but the output array has no entry
at the destination index), then `current_state` afterwards equals the
resolved next state from the transition table: the commit is not rolled
back on this error. -/
theorem moore_noOutput_partial_commit {I O : Type} [BEq I]
    (m : Moore I O) (input : I) (next : State)
    (hres : resolve m.transitions m.state input = some next)
    (h : (m.step input).1 = Except.error StepError.NoOutput) :
    (m.step input).2.current_state = next := by
  cases hf : m.transitions.find? (fun t => t.1 == m.state && t.2.1 == input) with
  | none => simp [resolve, hf] at hres
  | some t =>
    simp only [resolve, hf, Option.map_some', Option.some.injEq] at hres
    cases hg : m.outputs[t.2.2.val]? with
    | none =>
      simp only [Moore.step, hf, hg, Moore.current_state]
      exact hres
    | some o => simp [Moore.step, hf, hg] at h

/-- Witness for C1, instantiated at Scenario D from the spec: state 0
maps to state 2 on `A`, output array has only indices 0 and 1; `step A`
fails with `NoOutput` yet the state is now 2 (the resolved next state),
no longer the pre-step state 0. -/
theorem moore_noOutput_partial_commit_witness :
    resolve mooreD.transitions mooreD.state TIn.A = some 2 ∧
    (mooreD.step TIn.A).1 = Except.error StepError.NoOutput ∧
    mooreD.current_state = 0 ∧
    (mooreD.step TIn.A).2.current_state = 2 :=
  ⟨rfl, rfl, rfl, moore_noOutput_partial_commit mooreD TIn.A 2 rfl rfl⟩

/-- C2: For every Mealy machine and input, if `step` returns
`Err(NoOutput)` (transition matched but no output-table entry matched),
then `current_state` afterwards equals `current_state` before: the
transition is not committed. -/
theorem mealy_noOutput_state_unchanged {I O : Type} [BEq I]
    (m : Mealy I O) (input : I)
    (h : (m.step input).1 = Except.error StepError.NoOutput) :
    (m.step input).2.current_state = m.current_state := by
  cases hf : m.transitions.find? (fun t => t.1 == m.state && t.2.1 == input) with
  | none => simp [Mealy.step, hf]
  | some t =>
    cases hg : m.outputs.find? (fun e => e.1 == m.state && e.2.1 == input) with
    | none => simp [Mealy.step, hf, hg]
    | some e => simp [Mealy.step, hf, hg] at h

/-- Witness for C2: a Mealy machine with transition `(0, A, 1)` but an
empty output table; `step A` fails with `NoOutput` and the state is still
the initial state. -/
theorem mealy_noOutput_state_unchanged_witness :
    (mealyNoOut.step TIn.A).1 = Except.error StepError.NoOutput ∧
    (mealyNoOut.step TIn.A).2.current_state = mealyNoOut.current_state :=
  ⟨rfl, mealy_noOutput_state_unchanged mealyNoOut TIn.A rfl⟩

/-- C3: For every Mealy machine and every Moore machine and every input,
if `step` returns `Err(NoTransition)`, then `current_state` afterwards
equals `current_state` before the call. -/
theorem noTransition_state_unchanged {I O : Type} [BEq I] :
    (∀ (m : Mealy I O) (input : I),
      (m.step input).1 = Except.error StepError.NoTransition →
      (m.step input).2.current_state = m.current_state) ∧
    (∀ (m : Moore I O) (input : I),
      (m.step input).1 = Except.error StepError.NoTransition →
      (m.step input).2.current_state = m.current_state) := by
  constructor
  · intro m input h
    cases hf : m.transitions.find? (fun t => t.1 == m.state && t.2.1 == input) with
    | none => simp [Mealy.step, hf]
    | some t =>
      cases hg : m.outputs.find? (fun e => e.1 == m.state && e.2.1 == input) with
      | none => simp [Mealy.step, hf, hg] at h
      | some e => simp [Mealy.step, hf, hg] at h
  · intro m input h
    cases hf : m.transitions.find? (fun t => t.1 == m.state && t.2.1 == input) with
    | none => simp [Moore.step, hf]
    | some t =>
      cases hg : m.outputs[t.2.2.val]? with
      | none => simp [Moore.step, hf, hg] at h
      | some o => simp [Moore.step, hf, hg] at h

/-- Witness for C3: input `B` matches no transition from state 0 in
either scenario machine; both steps report `NoTransition` and leave the
state at 0. -/
theorem noTransition_state_unchanged_witness :
    (mealyA.step TIn.B).1 = Except.error StepError.NoTransition ∧
    (mealyA.step TIn.B).2.current_state = mealyA.current_state ∧
    (mooreC.step TIn.B).1 = Except.error StepError.NoTransition ∧
    (mooreC.step TIn.B).2.current_state = mooreC.current_state :=
  ⟨rfl, noTransition_state_unchanged.1 mealyA TIn.B rfl,
   rfl, noTransition_state_unchanged.2 mooreC TIn.B rfl⟩

/-- C4: First-match-wins: if the transition table contains two entries
with the same `(from_state, input)` key — equal to the machine's
`(current_state, input)` — but different `to_state` values, resolution
returns the `to_state` of the entry appearing earlier in table order, and
both engines commit to that state (Mealy on a successful step, Moore
whenever the transition matches). -/
theorem first_match_wins {I O : Type} [BEq I] [LawfulBEq I]
    (s t1 t2 : State) (i : I) (pre mid post : List (State × I × State))
    (hpre : ∀ e ∈ pre, (e.1 == s && e.2.1 == i) = false)
    (hne : t1 ≠ t2) :
    resolve (pre ++ (s, i, t1) :: (mid ++ (s, i, t2) :: post)) s i = some t1 ∧
    (∀ (m : Mealy I O), m.state = s →
      m.transitions = pre ++ (s, i, t1) :: (mid ++ (s, i, t2) :: post) →
      ∀ o, (m.step i).1 = Except.ok o → (m.step i).2.current_state = t1) ∧
    (∀ (m : Moore I O), m.state = s →
      m.transitions = pre ++ (s, i, t1) :: (mid ++ (s, i, t2) :: post) →
      (m.step i).2.current_state = t1) := by
  have hfind : (pre ++ (s, i, t1) :: (mid ++ (s, i, t2) :: post)).find?
      (fun t => t.1 == s && t.2.1 == i) = some (s, i, t1) := by
    rw [find?_append_of_forall_false _ hpre]
    exact List.find?_cons_of_pos _ (by simp)
  refine ⟨by simp [resolve, hfind], fun m hs ht o h => ?_, fun m hs ht => ?_⟩
  · have hfm : m.transitions.find? (fun t => t.1 == m.state && t.2.1 == i) =
        some (s, i, t1) := by rw [ht, hs]; exact hfind
    cases hg : m.outputs.find? (fun e => e.1 == m.state && e.2.1 == i) with
    | none => simp [Mealy.step, hfm, hg] at h
    | some e => simp [Mealy.step, Mealy.current_state, hfm, hg]
  · have hfm : m.transitions.find? (fun t => t.1 == m.state && t.2.1 == i) =
        some (s, i, t1) := by rw [ht, hs]; exact hfind
    cases hg : m.outputs[(t1 : State).val]? with
    | none => simp [Moore.step, Moore.current_state, hfm, hg]
    | some o => simp [Moore.step, Moore.current_state, hfm, hg]

/-- Witness for C4: `dupTable` has entries `(0,A,1)` and `(0,A,2)`;
resolution from state 0 on `A` picks the earlier destination 1, and both
engines built over `dupTable` land in state 1 after `step A`. -/
theorem first_match_wins_witness :
    resolve dupTable 0 TIn.A = some 1 ∧
    (mealyDup.step TIn.A).2.current_state = 1 ∧
    (mooreDup.step TIn.A).2.current_state = 1 := by
  obtain ⟨h1, h2, h3⟩ :=
    first_match_wins (O := TOut) 0 1 2 TIn.A [] [] [] (by simp) (by decide)
  exact ⟨h1, h2 mealyDup rfl rfl TOut.X rfl, h3 mooreDup rfl rfl⟩

/-- C5: For every Mealy machine, a successful `step` returns the output
component of the first output-table entry (in table order) whose
`(state, input)` key is the machine's pre-transition state paired with
the triggering input. -/
theorem mealy_output_keyed_pre_state {I O : Type} [BEq I]
    (m : Mealy I O) (input : I) (o : O)
    (h : (m.step input).1 = Except.ok o) :
    (m.outputs.find? (fun e => e.1 == m.current_state && e.2.1 == input)).map
      (fun e => e.2.2) = some o := by
  cases hf : m.transitions.find? (fun t => t.1 == m.state && t.2.1 == input) with
  | none => simp [Mealy.step, hf] at h
  | some t =>
    cases hg : m.outputs.find? (fun e => e.1 == m.state && e.2.1 == input) with
    | none => simp [Mealy.step, hf, hg] at h
    | some e =>
      simp only [Mealy.step, hf, hg] at h
      simp only [Mealy.current_state, hg, Option.map_some]
      simpa using h

/-- Witness for C5, instantiated at Scenario A from the spec: `step A`
returns `Ok X`, which is the output of the first (and only) output-table
entry keyed on the pre-transition state 0 with input `A` — not on the
destination state 1, which has no `A`-keyed output entry at all. -/
theorem mealy_output_keyed_pre_state_witness :
    (mealyA.step TIn.A).1 = Except.ok TOut.X ∧
    (mealyA.outputs.find?
      (fun e => e.1 == mealyA.current_state && e.2.1 == TIn.A)).map
      (fun e => e.2.2) = some TOut.X :=
  ⟨rfl, mealy_output_keyed_pre_state mealyA TIn.A TOut.X rfl⟩

end Fsmall
